import Mathlib

/-!
Formal model of the photography-portfolio repository: the asset-derivation
pipeline described by the specification (tile pyramids, derived rasters,
manifest assembly) and the shipped gallery UI logic (URL construction,
cyclic navigation, collection filtering).
-/

namespace PhotoGallery

/-- Ceiling division on naturals: the number of size-`b` blocks needed to
cover `a` units, i.e. the natural-number reading of the ceiling of `a / b`. -/
def ceilDiv (a b : Nat) : Nat := (a + b - 1) / b

/-- Modelled from the spec: the Tile Pyramid Builder (spec section 4.3, absent
from the shipped sources) repeatedly downsamples the previous level by exactly
2x (pixel dimensions rounded up) from the finest level down to a level that
fits in a single tile of side `t`; `halveSteps t m` counts those downsampling
steps for an image whose longest edge is `m`. -/
def halveSteps (t m : Nat) : Nat :=
  if m ≤ t ∨ m ≤ 1 then 0
  else halveSteps t (ceilDiv m 2) + 1
termination_by m
decreasing_by simp only [ceilDiv]; omega

/-- Modelled from the spec: total pyramid depth, the number of levels of the
tile pyramid, one level per downsampling step plus the finest level itself. -/
def pyramidDepth (w h t : Nat) : Nat := halveSteps t (max w h) + 1

/-- Modelled from the spec: the number of tiles of nominal side `t` laid along
an axis of `dim` pixels when a level is partitioned into a tile grid; the
final tile is cropped to the remaining pixels. -/
def numTiles (t dim : Nat) : Nat :=
  if t = 0 ∨ dim = 0 then 0
  else if dim ≤ t then 1
  else numTiles t (dim - t) + 1
termination_by dim
decreasing_by omega

/-- Modelled from the spec: the first pixel covered by tile `idx` along one
axis, for nominal tile side `t` and overlap `o`; interior tiles extend `o`
pixels before their nominal boundary, the edge tile omits the overlap on the
missing side. -/
def tileStart (t o idx : Nat) : Nat := if idx = 0 then 0 else idx * t - o

/-- Modelled from the spec: one past the last pixel covered by tile `idx`
along an axis of `dim` pixels; tiles extend `o` pixels past their nominal
boundary where available and are cropped to the remaining pixels at the
image edge. -/
def tileEnd (dim t o idx : Nat) : Nat := min ((idx + 1) * t + o) dim

/-- Division rounding to the nearest integer (halves rounded up). -/
def nearestDiv (a b : Nat) : Nat := (2 * a + b) / (2 * b)

/-- Modelled from the spec: the Raster Derivation resizing rule (spec section
4.2, absent from the shipped sources): scale so the longer edge equals the
target size, rounding the shorter edge to the nearest integer pixel, and
never upscale beyond the native resolution (clamp the target to the native
longer edge). Returns output width and height. -/
def deriveDims (w h target : Nat) : Nat × Nat :=
  if h ≤ w then
    (min target (max w h), nearestDiv (h * min target (max w h)) w)
  else
    (nearestDiv (w * min target (max w h)) h, min target (max w h))

/-- Modelled from the spec: a per-image record handed to the Manifest
Assembler; each required artifact path is present or missing. -/
structure RawRecord where
  id : String
  collection : Option String
  thumbnail : Option String
  preview : Option String
  tiles : Option String
  master : Option String
deriving DecidableEq

/-- Modelled from the spec: a record has all four required paths (thumbnail,
preview, tile-pyramid manifest, master). -/
def hasRequiredPaths (r : RawRecord) : Bool :=
  r.thumbnail.isSome && r.preview.isSome && r.tiles.isSome && r.master.isSome

/-- First-seen-order deduplication, as an insertion-order set build (the
semantics of iterating JavaScript `new Set`): fold left, appending each
element not already present. -/
def firstSeenDedup (l : List String) : List String :=
  l.foldl (fun acc c => if c ∈ acc then acc else acc ++ [c]) []

/-- Reference definition following the words of the spec: the deduplication,
in order of first appearance, of a list of tags — keep the head, drop its
later duplicates, recurse. Used to compare against `firstSeenDedup`. -/
def specFirstSeen : List String → List String
  | [] => []
  | c :: l => c :: specFirstSeen (l.filter (fun x => decide (x ≠ c)))
termination_by l => l.length
decreasing_by simp only [List.length_cons]; exact Nat.lt_succ_of_le (List.length_filter_le _ _)

/-- Modelled from the spec: the assembled gallery manifest — the included
records, the recomputed collection-tag list and the warnings for excluded
records. -/
structure Manifest where
  images : List RawRecord
  collections : List String
  warnings : List String
deriving DecidableEq

/-- Modelled from the spec: the Manifest Assembler (spec section 4.4, absent
from the shipped sources): records lacking a required path are excluded with
a warning rather than aborting the assembly; the collection list is the
first-seen-order deduplication of the tags of included records. -/
def assembleManifest (rs : List RawRecord) : Manifest :=
  { images := rs.filter hasRequiredPaths
    collections := firstSeenDedup ((rs.filter hasRequiredPaths).filterMap (fun r => r.collection))
    warnings := (rs.filter (fun r => ! hasRequiredPaths r)).map (fun r => r.id) }

/-- Modelled from the spec: one ingested master image (identifier, pixel
dimensions, optional collection tag). -/
structure MasterImage where
  id : String
  width : Nat
  height : Nat
  collection : Option String
deriving DecidableEq

/-- Modelled from the spec: the pipeline configuration surface. -/
structure PipelineConfig where
  thumbnailLongEdge : Nat
  previewLongEdge : Nat
  tileSize : Nat
  tileOverlap : Nat
deriving DecidableEq

/-- Modelled from the spec: the per-image tile-pyramid manifest record
(format-level data: dimensions, tile size, overlap, depth). -/
structure TilePyramidManifest where
  id : String
  width : Nat
  height : Nat
  tileSize : Nat
  overlap : Nat
  depth : Nat
deriving DecidableEq

/-- Modelled from the spec: the per-image raw record produced for the
Manifest Assembler from a successfully processed master. -/
def toRawRecord (m : MasterImage) : RawRecord :=
  { id := m.id
    collection := m.collection
    thumbnail := some ("thumbnails/" ++ m.id ++ ".webp")
    preview := some ("previews/" ++ m.id ++ ".jpg")
    tiles := some ("tiles/" ++ m.id)
    master := some ("masters/" ++ m.id ++ ".tiff") }

/-- Modelled from the spec: the observable state of one pipeline run — the
immutable masters plus every derived artifact (thumbnail and preview
dimensions, tile-pyramid manifests, gallery manifest). -/
structure PipelineState where
  masters : List MasterImage
  thumbs : List (String × Nat × Nat)
  previews : List (String × Nat × Nat)
  tileManifests : List TilePyramidManifest
  manifest : Manifest
deriving DecidableEq

/-- Modelled from the spec: one batch run of the Asset Derivation Pipeline.
It reads only the masters and the configuration and (re)writes every derived
artifact: raster dimensions via `deriveDims`, tile pyramids via
`pyramidDepth`, and the gallery manifest via `assembleManifest`. -/
def runPipeline (cfg : PipelineConfig) (s : PipelineState) : PipelineState :=
  { s with
    thumbs := s.masters.map (fun m => (m.id, deriveDims m.width m.height cfg.thumbnailLongEdge))
    previews := s.masters.map (fun m => (m.id, deriveDims m.width m.height cfg.previewLongEdge))
    tileManifests := s.masters.map (fun m =>
      { id := m.id, width := m.width, height := m.height,
        tileSize := cfg.tileSize, overlap := cfg.tileOverlap,
        depth := pyramidDepth m.width m.height cfg.tileSize })
    manifest := assembleManifest (s.masters.map toRawRecord) }

/-- One gallery image record as consumed by the UI (`ImageData` in
`lib/types`), restricted to the fields the verified UI logic reads. -/
structure ImageData where
  id : String
  title : String
  collection : Option String
  tiles : String
  master : String
deriving DecidableEq

/-- The gallery manifest as consumed by the UI (`GalleryData` in
`lib/types`), restricted to the fields the verified UI logic reads. -/
structure GalleryData where
  title : String
  storageBaseUrl : String
  images : List ImageData
  collections : List String
deriving DecidableEq

/-- From `Home` in the page component: the image list shown under the active
collection filter — all images for the synthetic filter `all`, otherwise the
images whose `collection` tag equals the filter. -/
def filteredImages (g : GalleryData) (filter : String) : List ImageData :=
  if filter = "all" then g.images
  else g.images.filter (fun img => decide (img.collection = some filter))

/-- From `Home` in the page component: the collection-filter list — the
synthetic entry `all` followed by the insertion-order set of the truthy
`collection` tags of the loaded images (absent and empty tags dropped by the
`Boolean` filter); `all` alone when no gallery data is loaded. -/
def homeCollections (g : Option GalleryData) : List String :=
  match g with
  | none => ["all"]
  | some g =>
    "all" :: firstSeenDedup
      ((g.images.filterMap (fun img => img.collection)).filter (fun c => decide (c ≠ "")))

/-- From `ImageViewer`: the base URL of an image's tile folder — the storage
base URL is joined with a slash when non-empty (JavaScript truthiness of the
string), else the path is rooted at a bare slash. -/
def tilesUrl (storageBaseUrl tiles : String) : String :=
  if storageBaseUrl = "" then "/" ++ tiles
  else storageBaseUrl ++ "/" ++ tiles

/-- From `ImageViewer`: the deep-zoom manifest URL handed to the viewer
widget, `image.dzi` inside the tile folder. -/
def dziPath (storageBaseUrl tiles : String) : String :=
  tilesUrl storageBaseUrl tiles ++ "/image.dzi"

/-- From `handleDownload` in `ImageViewer`: the URL opened by the
download-master action. -/
def masterUrl (storageBaseUrl master : String) : String :=
  if storageBaseUrl = "" then "/" ++ master
  else storageBaseUrl ++ "/" ++ master

/-- Navigation direction passed to `handleNavigate`. -/
inductive NavDirection where
  | prev
  | next
deriving DecidableEq

/-- The `Home` component state the navigation handler reads and writes. -/
structure HomeState where
  galleryData : Option GalleryData
  selectedImage : Option ImageData
  filter : String
deriving DecidableEq

/-- JavaScript `Array.findIndex` semantics: the index of the first element
satisfying the test, `-1` when none does. -/
def findIndexJS (p : ImageData → Bool) : List ImageData → Int
  | [] => -1
  | a :: l =>
    if p a then 0
    else
      let r := findIndexJS p l
      if r = -1 then -1 else r + 1

/-- JavaScript array indexing semantics for `images[newIndex]`: the element
at a valid index, `undefined` (modelled as `none`) otherwise. -/
def jsIndex (l : List ImageData) (i : Int) : Option ImageData :=
  if h : 0 ≤ i ∧ i.toNat < l.length then some (l.get ⟨i.toNat, h.2⟩) else none

/-- From `handleNavigate` in the `Home` component: returns unchanged state
when no image is selected or no gallery data is loaded; otherwise finds the
selected image in the filtered list and moves the selection one step with
wrap-around at both ends. -/
def handleNavigate (direction : NavDirection) (s : HomeState) : HomeState :=
  match s.selectedImage, s.galleryData with
  | some sel, some g =>
    let images := filteredImages g s.filter
    let currentIndex := findIndexJS (fun img => decide (img.id = sel.id)) images
    let newIndex : Int :=
      if direction = NavDirection.prev then
        if currentIndex > 0 then currentIndex - 1 else (images.length : Int) - 1
      else
        if currentIndex < (images.length : Int) - 1 then currentIndex + 1 else 0
    { s with selectedImage := jsIndex images newIndex }
  | _, _ => s

/-- A complete per-image record used as a concrete batch fixture. -/
def sampleComplete (i : String) (c : Option String) : RawRecord :=
  { id := i
    collection := c
    thumbnail := some ("thumbnails/" ++ i ++ ".webp")
    preview := some ("previews/" ++ i ++ ".jpg")
    tiles := some ("tiles/" ++ i)
    master := some ("masters/" ++ i ++ ".tiff") }

/-- A per-image record lacking its preview path, used as a concrete batch
fixture. -/
def sampleMissingPreview (i : String) : RawRecord :=
  { id := i
    collection := none
    thumbnail := some ("thumbnails/" ++ i ++ ".webp")
    preview := none
    tiles := some ("tiles/" ++ i)
    master := some ("masters/" ++ i ++ ".tiff") }

/-- A concrete gallery image fixture. -/
def sampleImageA : ImageData :=
  { id := "a", title := "Alpha", collection := some "city",
    tiles := "tiles/a", master := "masters/a.tiff" }

/-- A second concrete gallery image fixture. -/
def sampleImageB : ImageData :=
  { id := "b", title := "Beta", collection := none,
    tiles := "tiles/b", master := "masters/b.tiff" }

/-- A concrete two-image gallery fixture. -/
def sampleGallery : GalleryData :=
  { title := "Gallery", storageBaseUrl := "", images := [sampleImageA, sampleImageB],
    collections := ["city"] }

/-- A concrete `Home` state with the last image of the unfiltered list
selected. -/
def sampleState : HomeState :=
  { galleryData := some sampleGallery, selectedImage := some sampleImageB, filter := "all" }

/-- A concrete `Home` state with nothing loaded and nothing selected. -/
def sampleEmptyState : HomeState :=
  { galleryData := none, selectedImage := none, filter := "all" }

/-! ### Arithmetic helper lemmas -/

theorem ceilDiv_le_iff (a b n : Nat) (hb : 0 < b) : ceilDiv a b ≤ n ↔ a ≤ b * n := by
  unfold ceilDiv
  rw [Nat.div_le_iff_le_mul_add_pred hb]
  omega

theorem le_ceilDiv_mul (a b : Nat) (hb : 0 < b) : a ≤ ceilDiv a b * b := by
  have h := (ceilDiv_le_iff a b (ceilDiv a b) hb).mp (Nat.le_refl _)
  rw [Nat.mul_comm]
  exact h

theorem ceilDiv_pos (a b : Nat) (ha : 1 ≤ a) (hb : 0 < b) : 1 ≤ ceilDiv a b := by
  by_contra hc
  push_neg at hc
  have h0 : ceilDiv a b ≤ 0 := by omega
  have := (ceilDiv_le_iff a b 0 hb).mp h0
  omega

theorem ceilDiv_eq_one (a b : Nat) (ha : 1 ≤ a) (hab : a ≤ b) : ceilDiv a b = 1 := by
  have hb : 0 < b := by omega
  have h1 : ceilDiv a b ≤ 1 := (ceilDiv_le_iff a b 1 hb).mpr (by omega)
  have h2 := ceilDiv_pos a b ha hb
  omega

theorem ceilDiv_half_le_pow_iff (m t k : Nat) (ht : 0 < t) :
    ceilDiv (ceilDiv m 2) t ≤ 2 ^ k ↔ m ≤ t * 2 ^ (k + 1) := by
  rw [ceilDiv_le_iff (ceilDiv m 2) t (2 ^ k) ht,
    ceilDiv_le_iff m 2 (t * 2 ^ k) (by omega)]
  have he : 2 * (t * 2 ^ k) = t * 2 ^ (k + 1) := by ring
  rw [he]

/-- The iterative downsampling count agrees with the closed ceiling-log
formula: `halveSteps t m = ⌈log2 ⌈m / t⌉⌉`. -/
theorem halveSteps_eq_clog (t : Nat) (ht : 1 ≤ t) :
    ∀ m, 1 ≤ m → halveSteps t m = Nat.clog 2 (ceilDiv m t) := by
  intro m
  induction m using Nat.strong_induction_on with
  | _ m ih =>
    intro hm
    by_cases hcase : m ≤ t
    · unfold halveSteps
      rw [if_pos (Or.inl hcase), ceilDiv_eq_one m t hm hcase, Nat.clog_one_right]
    · have hm2 : 2 ≤ m := by omega
      unfold halveSteps
      rw [if_neg (by omega)]
      have hhalf : ceilDiv m 2 < m := by simp only [ceilDiv]; omega
      have hhalf1 : 1 ≤ ceilDiv m 2 := ceilDiv_pos m 2 hm (by omega)
      rw [ih (ceilDiv m 2) hhalf hhalf1]
      have hcd2 : 2 ≤ ceilDiv m t := by
        by_contra hc
        push_neg at hc
        have := (ceilDiv_le_iff m t 1 (by omega)).mp (by omega)
        omega
      have key1 : ceilDiv (ceilDiv m 2) t ≤ 2 ^ Nat.clog 2 (ceilDiv (ceilDiv m 2) t) :=
        Nat.le_pow_clog (by omega) _
      have key1m : m ≤ t * 2 ^ (Nat.clog 2 (ceilDiv (ceilDiv m 2) t) + 1) :=
        (ceilDiv_half_le_pow_iff m t _ (by omega)).mp key1
      have hupper : Nat.clog 2 (ceilDiv m t) ≤ Nat.clog 2 (ceilDiv (ceilDiv m 2) t) + 1 := by
        rw [← Nat.le_pow_iff_clog_le (by omega)]
        exact (ceilDiv_le_iff m t _ (by omega)).mpr key1m
      have key2 : ceilDiv m t ≤ 2 ^ Nat.clog 2 (ceilDiv m t) :=
        Nat.le_pow_clog (by omega) _
      have key2m : m ≤ t * 2 ^ Nat.clog 2 (ceilDiv m t) :=
        (ceilDiv_le_iff m t _ (by omega)).mp key2
      have hApos : 0 < Nat.clog 2 (ceilDiv m t) := Nat.clog_pos (by omega) hcd2
      have hexp : Nat.clog 2 (ceilDiv m t) - 1 + 1 = Nat.clog 2 (ceilDiv m t) := by omega
      have key2m2 : m ≤ t * 2 ^ (Nat.clog 2 (ceilDiv m t) - 1 + 1) := by
        rw [hexp]; exact key2m
      have hlow : Nat.clog 2 (ceilDiv (ceilDiv m 2) t) ≤ Nat.clog 2 (ceilDiv m t) - 1 := by
        rw [← Nat.le_pow_iff_clog_le (by omega)]
        exact (ceilDiv_half_le_pow_iff m t _ (by omega)).mpr key2m2
      omega

/-- The iterative tile count agrees with ceiling division. -/
theorem numTiles_eq_ceilDiv (t : Nat) (ht : 1 ≤ t) :
    ∀ dim, numTiles t dim = ceilDiv dim t := by
  intro dim
  induction dim using Nat.strong_induction_on with
  | _ dim ih =>
    by_cases h0 : dim = 0
    · subst h0
      unfold numTiles
      rw [if_pos (Or.inr rfl)]
      unfold ceilDiv
      rw [Nat.div_eq_of_lt (by omega)]
    · by_cases h1 : dim ≤ t
      · unfold numTiles
        rw [if_neg (by omega), if_pos h1, ceilDiv_eq_one dim t (by omega) h1]
      · unfold numTiles
        rw [if_neg (by omega), if_neg h1, ih (dim - t) (by omega)]
        unfold ceilDiv
        have he : dim + t - 1 = (dim - t + t - 1) + t := by omega
        rw [he, Nat.add_div_right _ (by omega)]

/-- The pyramid depth in closed form: iterated 2x downsampling gives
`⌈log2 ⌈max w h / t⌉⌉ + 1` levels. -/
theorem pyramidDepth_eq_clog (w h t : Nat) (ht : 1 ≤ t) (hm : 1 ≤ max w h) :
    pyramidDepth w h t = Nat.clog 2 (ceilDiv (max w h) t) + 1 := by
  show halveSteps t (max w h) + 1 = _
  rw [halveSteps_eq_clog t ht (max w h) hm]

/-! ### Claim C1: pyramid depth and finest-level grid -/

/-- C1: for every master image with width `w ≥ 1`, height `h ≥ 1` and tile
size `t ≥ 1` (with at least one tile-size worth of pixels on the longer
edge, so that the real-valued ceiling-log formula is non-negative and agrees
with `Nat.clog`), the pyramid built by repeated 2x downsampling has total
depth `⌈log2 (max w h / t)⌉ + 1`, and the finest level is partitioned into
`⌈w / t⌉` columns by `⌈h / t⌉` rows of tiles; in particular a 4000x3000
master with tile size 256 has depth 5 and a 16 by 12 finest-level grid. -/
theorem claim1_pyramid_depth_and_grid (w h t : Nat)
    (hw : 1 ≤ w) (hh : 1 ≤ h) (ht : 1 ≤ t) (hwt : t ≤ max w h) :
    pyramidDepth w h t = Nat.clog 2 (ceilDiv (max w h) t) + 1 ∧
    numTiles t w = ceilDiv w t ∧
    numTiles t h = ceilDiv h t ∧
    pyramidDepth 4000 3000 256 = 5 ∧
    numTiles 256 4000 = 16 ∧
    numTiles 256 3000 = 12 := by
  refine ⟨pyramidDepth_eq_clog w h t ht (by omega),
    numTiles_eq_ceilDiv t ht w, numTiles_eq_ceilDiv t ht h, ?_, ?_, ?_⟩
  · have g := pyramidDepth_eq_clog 4000 3000 256 (by norm_num) (by norm_num)
    have e3 : ceilDiv (max 4000 3000) 256 = 16 := by norm_num [ceilDiv]
    have e4 : Nat.clog 2 16 = 4 := by
      have u1 : Nat.clog 2 16 ≤ 4 := (Nat.le_pow_iff_clog_le (by norm_num)).mp (by norm_num)
      have u2 : 3 < Nat.clog 2 16 := (Nat.pow_lt_iff_lt_clog (by norm_num)).mp (by norm_num)
      omega
    rw [e3, e4] at g
    exact g
  · have g := numTiles_eq_ceilDiv 256 (by norm_num) 4000
    have f2 : ceilDiv 4000 256 = 16 := by norm_num [ceilDiv]
    rw [f2] at g
    exact g
  · have g := numTiles_eq_ceilDiv 256 (by norm_num) 3000
    have f2 : ceilDiv 3000 256 = 12 := by norm_num [ceilDiv]
    rw [f2] at g
    exact g

/-- Witness for C1 at the concrete instance from the specification:
4000x3000 master, tile size 256. -/
theorem claim1_pyramid_depth_and_grid_witness :
    pyramidDepth 4000 3000 256 = 5 ∧ numTiles 256 4000 = 16 ∧ numTiles 256 3000 = 12 :=
  (claim1_pyramid_depth_and_grid 4000 3000 256 (by norm_num) (by norm_num)
    (by norm_num) (by norm_num)).2.2.2

/-! ### Claim C2: finest-level tiles cover the master exactly -/

/-- Along one axis, the pixel `x < dim` lies in tile `x / t`, whose index is
inside the tile grid. -/
theorem tile_cover (dim t o x : Nat) (ht : 1 ≤ t) (hx : x < dim) :
    x / t < numTiles t dim ∧ tileStart t o (x / t) ≤ x ∧ x < tileEnd dim t o (x / t) := by
  have hnum : numTiles t dim = ceilDiv dim t := numTiles_eq_ceilDiv t ht dim
  refine ⟨?_, ?_, ?_⟩
  · rw [hnum, Nat.div_lt_iff_lt_mul (by omega)]
    have := le_ceilDiv_mul dim t (by omega)
    omega
  · unfold tileStart
    by_cases h0 : x / t = 0
    · rw [if_pos h0]; omega
    · rw [if_neg h0]
      have := Nat.div_mul_le_self x t
      omega
  · unfold tileEnd
    have h1 : x / t < x / t + 1 := Nat.lt_succ_self _
    have hlt : x < (x / t + 1) * t := (Nat.div_lt_iff_lt_mul (by omega)).mp h1
    exact lt_min (by omega) hx

/-- C2: for every master of width `w` and height `h`, tile size `t ≥ 1` and
overlap `o` within the safe bound `2o ≤ t`, the finest-level tile grid covers
the master exactly: every pixel `(x, y)` lies in the tile `(x / t, y / t)` of
the grid (no gaps); every tile stays inside the master (no padding); each
tile extends exactly `o` overlap pixels past each interior edge where a full
neighbour exists, and tiles that are not adjacent are disjoint (no overlap
beyond the configured one); the final tile of a row or column is cropped to
end exactly at the master's edge. -/
theorem claim2_finest_level_tiling (w h t o : Nat) (ht : 1 ≤ t) (ho : 2 * o ≤ t) :
    (∀ x y, x < w → y < h →
      x / t < numTiles t w ∧ y / t < numTiles t h ∧
      tileStart t o (x / t) ≤ x ∧ x < tileEnd w t o (x / t) ∧
      tileStart t o (y / t) ≤ y ∧ y < tileEnd h t o (y / t)) ∧
    (∀ idx, tileEnd w t o idx ≤ w) ∧
    (∀ idx, (idx + 1) * t + o ≤ w →
      tileEnd w t o idx = (idx + 1) * t + o ∧
      tileStart t o (idx + 1) = (idx + 1) * t - o) ∧
    (∀ i j, i + 2 ≤ j → tileEnd w t o i ≤ tileStart t o j) ∧
    (1 ≤ w → tileEnd w t o (numTiles t w - 1) = w) ∧
    (1 ≤ h → tileEnd h t o (numTiles t h - 1) = h) := by
  refine ⟨?_, ?_, ?_, ?_, ?_, ?_⟩
  · intro x y hx hy
    obtain ⟨hx1, hx2, hx3⟩ := tile_cover w t o x ht hx
    obtain ⟨hy1, hy2, hy3⟩ := tile_cover h t o y ht hy
    exact ⟨hx1, hy1, hx2, hx3, hy2, hy3⟩
  · intro idx
    unfold tileEnd
    exact Nat.min_le_right _ _
  · intro idx hle
    unfold tileEnd tileStart
    refine ⟨Nat.min_eq_left hle, ?_⟩
    rw [if_neg (by omega : ¬ idx + 1 = 0)]
  · intro i j hij
    unfold tileEnd tileStart
    rw [if_neg (by omega : ¬ j = 0)]
    have hmul : (i + 2) * t ≤ j * t := Nat.mul_le_mul_right t hij
    have h2 : (i + 1) * t + t = (i + 2) * t := by ring
    have hmin : min ((i + 1) * t + o) w ≤ (i + 1) * t + o := Nat.min_le_left _ _
    omega
  · intro hw1
    have hnum : numTiles t w = ceilDiv w t := numTiles_eq_ceilDiv t ht w
    have hpos : 1 ≤ numTiles t w := by
      rw [hnum]; exact ceilDiv_pos w t hw1 (by omega)
    unfold tileEnd
    have hno : numTiles t w - 1 + 1 = numTiles t w := by omega
    rw [hno, hnum]
    have := le_ceilDiv_mul w t (by omega)
    exact Nat.min_eq_right (by omega)
  · intro hh1
    have hnum : numTiles t h = ceilDiv h t := numTiles_eq_ceilDiv t ht h
    have hpos : 1 ≤ numTiles t h := by
      rw [hnum]; exact ceilDiv_pos h t hh1 (by omega)
    unfold tileEnd
    have hno : numTiles t h - 1 + 1 = numTiles t h := by omega
    rw [hno, hnum]
    have := le_ceilDiv_mul h t (by omega)
    exact Nat.min_eq_right (by omega)

/-- Witness for C2 at a concrete 1000x600 master with the default
configuration of the specification, tile size 256 and overlap 1. -/
theorem claim2_finest_level_tiling_witness :
    (∀ x y, x < 1000 → y < 600 →
      x / 256 < numTiles 256 1000 ∧ y / 256 < numTiles 256 600 ∧
      tileStart 256 1 (x / 256) ≤ x ∧ x < tileEnd 1000 256 1 (x / 256) ∧
      tileStart 256 1 (y / 256) ≤ y ∧ y < tileEnd 600 256 1 (y / 256)) ∧
    (∀ idx, tileEnd 1000 256 1 idx ≤ 1000) ∧
    (∀ idx, (idx + 1) * 256 + 1 ≤ 1000 →
      tileEnd 1000 256 1 idx = (idx + 1) * 256 + 1 ∧
      tileStart 256 1 (idx + 1) = (idx + 1) * 256 - 1) ∧
    (∀ i j, i + 2 ≤ j → tileEnd 1000 256 1 i ≤ tileStart 256 1 j) ∧
    (1 ≤ 1000 → tileEnd 1000 256 1 (numTiles 256 1000 - 1) = 1000) ∧
    (1 ≤ 600 → tileEnd 600 256 1 (numTiles 256 600 - 1) = 600) :=
  claim2_finest_level_tiling 1000 600 256 1 (by norm_num) (by norm_num)

/-! ### Claims C3 and C6: derived-raster dimensions -/

/-- Rounding to the nearest integer stays within half a unit of the exact
quotient: `2 |a - b * nearestDiv a b| ≤ b`. -/
theorem nearestDiv_bounds (a b : Nat) (hb : 1 ≤ b) :
    2 * (b * nearestDiv a b) ≤ 2 * a + b ∧ 2 * a ≤ 2 * (b * nearestDiv a b) + b := by
  unfold nearestDiv
  have h1 : (2 * a + b) / (2 * b) * (2 * b) ≤ 2 * a + b := Nat.div_mul_le_self _ _
  have h2 : 2 * a + b < ((2 * a + b) / (2 * b) + 1) * (2 * b) :=
    (Nat.div_lt_iff_lt_mul (by omega)).mp (Nat.lt_succ_self _)
  have hc1 : (2 * a + b) / (2 * b) * (2 * b) = 2 * (b * ((2 * a + b) / (2 * b))) := by ring
  have hc2 : ((2 * a + b) / (2 * b) + 1) * (2 * b) = 2 * (b * ((2 * a + b) / (2 * b))) + 2 * b := by
    ring
  omega

/-- An upper bound for nearest rounding: the rounded quotient is at most `c`
whenever the numerator is strictly below the midpoint above `b * c`. -/
theorem nearestDiv_le_of (a b c : Nat) (hb : 1 ≤ b) (h : 2 * a < 2 * (b * c) + b) :
    nearestDiv a b ≤ c := by
  unfold nearestDiv
  rw [Nat.div_le_iff_le_mul_add_pred (by omega : 0 < 2 * b)]
  have hc : 2 * b * c = 2 * (b * c) := by ring
  omega

/-- C3: for every master of dimensions `w x h` (both at least one pixel) and
every configured target long edge, the derived raster's dimensions
`deriveDims w h target` satisfy the aspect-ratio invariant: the cross
products of output height by master width and output width by master height
differ by at most the master's longer edge, i.e. the output height over
width ratio equals the master's within the one-pixel rounding of the
shorter edge. -/
theorem claim3_aspect_ratio_preserved (w h target : Nat) (hw : 1 ≤ w) (hh : 1 ≤ h) :
    (deriveDims w h target).2 * w ≤ (deriveDims w h target).1 * h + max w h ∧
    (deriveDims w h target).1 * h ≤ (deriveDims w h target).2 * w + max w h := by
  by_cases hcase : h ≤ w
  · have hmax : max w h = w := Nat.max_eq_left hcase
    unfold deriveDims
    rw [if_pos hcase]
    dsimp only
    rw [hmax]
    have hb := nearestDiv_bounds (h * min target w) w hw
    have hc1 : w * nearestDiv (h * min target w) w = nearestDiv (h * min target w) w * w :=
      Nat.mul_comm _ _
    have hc2 : h * min target w = min target w * h := Nat.mul_comm _ _
    omega
  · have hmax : max w h = h := Nat.max_eq_right (by omega)
    unfold deriveDims
    rw [if_neg hcase]
    dsimp only
    rw [hmax]
    have hb := nearestDiv_bounds (w * min target h) h hh
    have hc1 : h * nearestDiv (w * min target h) h = nearestDiv (w * min target h) h * h :=
      Nat.mul_comm _ _
    have hc2 : w * min target h = min target h * w := Nat.mul_comm _ _
    omega

/-- Witness for C3 at a 4000x3000 master resized to a 2400-pixel preview
long edge. -/
theorem claim3_aspect_ratio_preserved_witness :
    (deriveDims 4000 3000 2400).2 * 4000 ≤ (deriveDims 4000 3000 2400).1 * 3000 + max 4000 3000 ∧
    (deriveDims 4000 3000 2400).1 * 3000 ≤ (deriveDims 4000 3000 2400).2 * 4000 + max 4000 3000 :=
  claim3_aspect_ratio_preserved 4000 3000 2400 (by norm_num) (by norm_num)

/-- C6: Raster Derivation never upscales — the output's long edge equals the
configured target clamped to the master's native longer edge, and neither
output dimension exceeds the corresponding native dimension. -/
theorem claim6_no_upscaling (w h target : Nat) (hw : 1 ≤ w) (hh : 1 ≤ h) :
    max (deriveDims w h target).1 (deriveDims w h target).2 = min target (max w h) ∧
    (deriveDims w h target).1 ≤ w ∧ (deriveDims w h target).2 ≤ h := by
  by_cases hcase : h ≤ w
  · have hmax : max w h = w := Nat.max_eq_left hcase
    unfold deriveDims
    rw [if_pos hcase]
    dsimp only
    rw [hmax]
    have hTw : min target w ≤ w := Nat.min_le_right _ _
    have hs_le_T : nearestDiv (h * min target w) w ≤ min target w := by
      refine nearestDiv_le_of _ _ _ hw ?_
      have := Nat.mul_le_mul_right (min target w) hcase
      omega
    have hs_le_h : nearestDiv (h * min target w) w ≤ h := by
      refine nearestDiv_le_of _ _ _ hw ?_
      have h1 := Nat.mul_le_mul_left h hTw
      have h2 : h * w = w * h := Nat.mul_comm _ _
      omega
    exact ⟨Nat.max_eq_left hs_le_T, hTw, hs_le_h⟩
  · have hmax : max w h = h := Nat.max_eq_right (by omega)
    unfold deriveDims
    rw [if_neg hcase]
    dsimp only
    rw [hmax]
    have hTh : min target h ≤ h := Nat.min_le_right _ _
    have hs_le_T : nearestDiv (w * min target h) h ≤ min target h := by
      refine nearestDiv_le_of _ _ _ hh ?_
      have := Nat.mul_le_mul_right (min target h) (show w ≤ h by omega)
      omega
    have hs_le_w : nearestDiv (w * min target h) h ≤ w := by
      refine nearestDiv_le_of _ _ _ hh ?_
      have h1 := Nat.mul_le_mul_left w hTh
      have h2 : w * h = h * w := Nat.mul_comm _ _
      omega
    exact ⟨Nat.max_eq_right hs_le_T, hs_le_w, hTh⟩

/-- Witness for C6 at a 4000x3000 master with an 8000-pixel target, which
exceeds the native long edge and must be clamped. -/
theorem claim6_no_upscaling_witness :
    max (deriveDims 4000 3000 8000).1 (deriveDims 4000 3000 8000).2 = min 8000 (max 4000 3000) ∧
    (deriveDims 4000 3000 8000).1 ≤ 4000 ∧ (deriveDims 4000 3000 8000).2 ≤ 3000 :=
  claim6_no_upscaling 4000 3000 8000 (by norm_num) (by norm_num)

/-! ### Claim C4: incomplete records are excluded, assembly completes -/

/-- Splitting a list by a Boolean test preserves its length. -/
theorem length_filter_add_length_filter_not {α : Type} (p : α → Bool) (l : List α) :
    (l.filter p).length + (l.filter (fun a => ! p a)).length = l.length := by
  induction l with
  | nil => rfl
  | cons a l ih =>
    by_cases hpa : p a = true
    · simp only [List.filter_cons, hpa, Bool.not_true, if_true]
      simp only [if_neg (by simp : ¬ (false = true)), List.length_cons]
      omega
    · have hpa2 : p a = false := by revert hpa; cases p a <;> simp
      simp only [List.filter_cons, hpa2, Bool.not_false, if_true]
      simp only [if_neg (by simp : ¬ (false = true)), List.length_cons]
      omega

/-- C4: for every batch of records in which exactly one record lacks a
required path, the assembled manifest contains exactly `N - 1` records, each
with all four required paths present, and the offending record produces
exactly one warning — assembly completes instead of aborting. -/
theorem claim4_incomplete_record_excluded (rs : List RawRecord)
    (h1 : (rs.filter (fun r => ! hasRequiredPaths r)).length = 1) :
    (assembleManifest rs).images.length = rs.length - 1 ∧
    (∀ r ∈ (assembleManifest rs).images, hasRequiredPaths r = true) ∧
    (assembleManifest rs).warnings.length = 1 := by
  refine ⟨?_, ?_, ?_⟩
  · show (rs.filter hasRequiredPaths).length = rs.length - 1
    have := length_filter_add_length_filter_not hasRequiredPaths rs
    omega
  · intro r hr
    have hr2 : r ∈ rs.filter hasRequiredPaths := hr
    exact (List.mem_filter.mp hr2).2
  · show ((rs.filter (fun r => ! hasRequiredPaths r)).map (fun r => r.id)).length = 1
    rw [List.length_map]
    exact h1

/-- Witness for C4 on a concrete three-record batch whose second record
lacks its preview path. -/
theorem claim4_incomplete_record_excluded_witness :
    (assembleManifest
        [sampleComplete "a" (some "city"), sampleMissingPreview "b",
          sampleComplete "c" none]).images.length =
      [sampleComplete "a" (some "city"), sampleMissingPreview "b",
        sampleComplete "c" none].length - 1 ∧
    (∀ r ∈ (assembleManifest
        [sampleComplete "a" (some "city"), sampleMissingPreview "b",
          sampleComplete "c" none]).images, hasRequiredPaths r = true) ∧
    (assembleManifest
        [sampleComplete "a" (some "city"), sampleMissingPreview "b",
          sampleComplete "c" none]).warnings.length = 1 :=
  claim4_incomplete_record_excluded
    [sampleComplete "a" (some "city"), sampleMissingPreview "b", sampleComplete "c" none]
    (by decide)

/-! ### Claim C5: collections are the first-seen deduplication of tags -/

/-- Unfolding equation of `specFirstSeen` on the empty list. -/
theorem specFirstSeen_nil : specFirstSeen [] = [] := by
  rw [specFirstSeen]

/-- Unfolding equation of `specFirstSeen` on a non-empty list. -/
theorem specFirstSeen_cons (c : String) (l : List String) :
    specFirstSeen (c :: l) = c :: specFirstSeen (l.filter (fun x => decide (x ≠ c))) := by
  rw [specFirstSeen]

/-- The insertion-order set build, started from any accumulator, appends the
first-seen deduplication of the not-yet-seen elements. -/
theorem foldl_dedup_general (l : List String) : ∀ acc : List String,
    List.foldl (fun a c => if c ∈ a then a else a ++ [c]) acc l =
      acc ++ specFirstSeen (l.filter (fun x => decide (x ∉ acc))) := by
  induction l with
  | nil =>
    intro acc
    simp [specFirstSeen]
  | cons c l ih =>
    intro acc
    simp only [List.foldl_cons, List.filter_cons]
    by_cases hc : c ∈ acc
    · rw [if_pos hc]
      have hdec : (decide (c ∉ acc)) = false := by simp [hc]
      rw [hdec, if_neg (by simp : ¬ (false = true))]
      exact ih acc
    · rw [if_neg hc]
      have hdec : (decide (c ∉ acc)) = true := by simp [hc]
      have hAB : List.filter (fun x => decide (x ∉ acc ++ [c])) l =
          (l.filter (fun x => decide (x ∉ acc))).filter (fun x => decide (x ≠ c)) := by
        rw [List.filter_filter]
        apply List.filter_congr
        intro x _
        by_cases h1 : x ∈ acc <;> by_cases h2 : x = c <;>
          simp [h1, h2, List.mem_append]
      rw [hdec, if_pos rfl, ih (acc ++ [c]), specFirstSeen_cons, hAB, List.append_assoc]
      rfl

/-- The implementation deduplication equals the specification one. -/
theorem firstSeenDedup_eq_spec (l : List String) : firstSeenDedup l = specFirstSeen l := by
  unfold firstSeenDedup
  rw [foldl_dedup_general l []]
  simp

/-- Membership in the first-seen deduplication is membership in the list. -/
theorem specFirstSeen_mem (x : String) (l : List String) :
    x ∈ specFirstSeen l ↔ x ∈ l := by
  induction l using specFirstSeen.induct with
  | case1 => rw [specFirstSeen_nil]
  | case2 c l ih =>
    rw [specFirstSeen_cons]
    by_cases hx : x = c
    · subst hx
      simp
    · simp only [List.mem_cons, ih, List.mem_filter]
      simp [hx]

/-- The first-seen deduplication has no duplicates. -/
theorem specFirstSeen_nodup (l : List String) : (specFirstSeen l).Nodup := by
  induction l using specFirstSeen.induct with
  | case1 =>
    rw [specFirstSeen_nil]
    exact List.nodup_nil
  | case2 c l ih =>
    rw [specFirstSeen_cons]
    refine List.nodup_cons.mpr ⟨?_, ih⟩
    intro hmem
    rw [specFirstSeen_mem] at hmem
    have := (List.mem_filter.mp hmem).2
    simp at this

/-- C5: the collections list computed by the Manifest Assembler is exactly
the first-seen-order deduplication of the `collection` tags present among
the included records (records without a tag contribute nothing); it has no
duplicates, and it contains a tag exactly when some included record carries
it. The `Home` component computes its filter list the same way over the
loaded images, with the synthetic entry `all` in front. -/
theorem claim5_collections_first_seen_dedup (rs : List RawRecord) (g : GalleryData) :
    (assembleManifest rs).collections =
      specFirstSeen ((rs.filter hasRequiredPaths).filterMap (fun r => r.collection)) ∧
    (assembleManifest rs).collections.Nodup ∧
    (∀ c, c ∈ (assembleManifest rs).collections ↔
      ∃ r, r ∈ (assembleManifest rs).images ∧ r.collection = some c) ∧
    homeCollections (some g) =
      "all" :: specFirstSeen
        ((g.images.filterMap (fun img => img.collection)).filter (fun c => decide (c ≠ ""))) := by
  refine ⟨firstSeenDedup_eq_spec _, ?_, ?_, ?_⟩
  · show (firstSeenDedup _).Nodup
    rw [firstSeenDedup_eq_spec]
    exact specFirstSeen_nodup _
  · intro c
    show c ∈ firstSeenDedup _ ↔ _
    rw [firstSeenDedup_eq_spec, specFirstSeen_mem, List.mem_filterMap]
    exact Iff.rfl
  · show "all" :: firstSeenDedup _ = _
    rw [firstSeenDedup_eq_spec]

/-! ### Claim C7: the pipeline is idempotent on unchanged input -/

/-- C7: running the Asset Derivation Pipeline a second time over the state
produced by a first run, with the same configuration and unchanged masters,
leaves every derived artifact identical — the derived raster dimensions, the
tile-pyramid manifests and the gallery manifest of the second run equal
those of the first run, and the whole state is a fixed point. -/
theorem claim7_pipeline_idempotent (cfg : PipelineConfig) (s : PipelineState) :
    runPipeline cfg (runPipeline cfg s) = runPipeline cfg s ∧
    (runPipeline cfg (runPipeline cfg s)).thumbs = (runPipeline cfg s).thumbs ∧
    (runPipeline cfg (runPipeline cfg s)).previews = (runPipeline cfg s).previews ∧
    (runPipeline cfg (runPipeline cfg s)).tileManifests = (runPipeline cfg s).tileManifests ∧
    (runPipeline cfg (runPipeline cfg s)).manifest = (runPipeline cfg s).manifest :=
  ⟨rfl, rfl, rfl, rfl, rfl⟩

/-! ### Claim C8: viewer tile and master URLs -/

/-- C8: the viewer requests the deep-zoom manifest at
`storageBaseUrl/<tiles>/image.dzi` when the storage base URL is non-empty
and at `/<tiles>/image.dzi` when it is empty, and the download-master action
opens `storageBaseUrl/<master>` (respectively `/<master>`). -/
theorem claim8_viewer_urls (b ts ms : String) (hb : b ≠ "") :
    dziPath b ts = b ++ "/" ++ ts ++ "/image.dzi" ∧
    masterUrl b ms = b ++ "/" ++ ms ∧
    dziPath "" ts = "/" ++ ts ++ "/image.dzi" ∧
    masterUrl "" ms = "/" ++ ms := by
  refine ⟨?_, ?_, ?_, ?_⟩
  · show (if b = "" then "/" ++ ts else b ++ "/" ++ ts) ++ "/image.dzi" = _
    rw [if_neg hb, String.append_assoc, String.append_assoc]
  · show (if b = "" then "/" ++ ms else b ++ "/" ++ ms) = _
    rw [if_neg hb]
  · show (if "" = "" then "/" ++ ts else "" ++ "/" ++ ts) ++ "/image.dzi" = _
    rw [if_pos rfl, String.append_assoc]
  · show (if "" = "" then "/" ++ ms else "" ++ "/" ++ ms) = _
    rw [if_pos rfl]

/-- Witness for C8 with a cloud storage base URL and concrete record
paths. -/
theorem claim8_viewer_urls_witness :
    dziPath "https://cdn.example.com" "tiles/a" =
      "https://cdn.example.com" ++ "/" ++ "tiles/a" ++ "/image.dzi" ∧
    masterUrl "https://cdn.example.com" "masters/a.tiff" =
      "https://cdn.example.com" ++ "/" ++ "masters/a.tiff" ∧
    dziPath "" "tiles/a" = "/" ++ "tiles/a" ++ "/image.dzi" ∧
    masterUrl "" "masters/a.tiff" = "/" ++ "masters/a.tiff" :=
  claim8_viewer_urls "https://cdn.example.com" "tiles/a" "masters/a.tiff" (by decide)

/-! ### Claim C9: navigation is cyclic on the filtered list -/

/-- A found JavaScript index is within the list. -/
theorem findIndexJS_lt_length (p : ImageData → Bool) (l : List ImageData) :
    ∀ i : Nat, findIndexJS p l = (i : Int) → i < l.length := by
  induction l with
  | nil =>
    intro i h
    simp only [findIndexJS] at h
    omega
  | cons a l ih =>
    intro i h
    simp only [findIndexJS] at h
    by_cases hpa : p a = true
    · rw [if_pos hpa] at h
      have : i = 0 := by omega
      simp [this]
    · rw [if_neg hpa] at h
      by_cases hr : findIndexJS p l = -1
      · rw [if_pos hr] at h
        omega
      · rw [if_neg hr] at h
        have hge : -1 ≤ findIndexJS p l := by
          clear h ih hr
          induction l with
          | nil => simp [findIndexJS]
          | cons b m ihm =>
            simp only [findIndexJS]
            by_cases hpb : p b = true
            · rw [if_pos hpb]; omega
            · rw [if_neg hpb]
              by_cases hm : findIndexJS p m = -1
              · rw [if_pos hm]
              · rw [if_neg hm]; omega
        have hnn : 0 ≤ findIndexJS p l := by omega
        have heq : findIndexJS p l = ((findIndexJS p l).toNat : Int) := by omega
        have := ih (findIndexJS p l).toNat heq
        simp only [List.length_cons]
        omega

/-- The JavaScript indexing model agrees with `List.get?` on natural
indices. -/
theorem jsIndex_coe (l : List ImageData) (n : Nat) : jsIndex l (n : Int) = l.get? n := by
  unfold jsIndex
  by_cases h : n < l.length
  · rw [dif_pos ⟨Int.natCast_nonneg n, by rwa [Int.toNat_natCast]⟩, List.get?_eq_get h]
    exact congrArg some (congrArg l.get (Fin.ext (Int.toNat_natCast n)))
  · have hcond : ¬(0 ≤ (n : Int) ∧ ((n : Int)).toNat < l.length) := by
      rw [Int.toNat_natCast]
      intro hc
      exact h hc.2
    rw [dif_neg hcond, List.get?_eq_none.mpr (by omega)]

/-- C9: when a gallery is loaded and the selected image occurs in the
filtered list at (first) index `i`, navigating next from the last position
wraps to the first image and otherwise advances by one; navigating prev from
the first position wraps to the last image and otherwise goes back by one;
and when nothing is selected or no gallery data is loaded, navigation leaves
the state unchanged. -/
theorem claim9_cyclic_navigation (s s2 : HomeState) (g : GalleryData) (sel : ImageData)
    (i : Nat) (d : NavDirection)
    (hg : s.galleryData = some g) (hs : s.selectedImage = some sel)
    (hi : findIndexJS (fun img => decide (img.id = sel.id)) (filteredImages g s.filter) = (i : Int))
    (h2 : s2.selectedImage = none ∨ s2.galleryData = none) :
    (handleNavigate NavDirection.next s).selectedImage =
      (filteredImages g s.filter).get?
        (if i + 1 = (filteredImages g s.filter).length then 0 else i + 1) ∧
    (handleNavigate NavDirection.prev s).selectedImage =
      (filteredImages g s.filter).get?
        (if i = 0 then (filteredImages g s.filter).length - 1 else i - 1) ∧
    handleNavigate d s2 = s2 := by
  have hilt : i < (filteredImages g s.filter).length :=
    findIndexJS_lt_length _ _ i hi
  have hnav : ∀ dir : NavDirection, (handleNavigate dir s).selectedImage =
      jsIndex (filteredImages g s.filter)
        (if dir = NavDirection.prev then
          (if (i : Int) > 0 then (i : Int) - 1
            else ((filteredImages g s.filter).length : Int) - 1)
         else
          (if (i : Int) < ((filteredImages g s.filter).length : Int) - 1 then (i : Int) + 1
            else 0)) := by
    intro dir
    simp only [handleNavigate, hs, hg]
    rw [hi]
  refine ⟨?_, ?_, ?_⟩
  · rw [hnav NavDirection.next,
      if_neg (show ¬ NavDirection.next = NavDirection.prev by decide)]
    by_cases hend : i + 1 = (filteredImages g s.filter).length
    · rw [if_neg (show ¬ ((i : Int) < ((filteredImages g s.filter).length : Int) - 1) by omega),
        if_pos hend]
      exact jsIndex_coe (filteredImages g s.filter) 0
    · rw [if_pos (show (i : Int) < ((filteredImages g s.filter).length : Int) - 1 by omega),
        if_neg hend]
      have hcast : (i : Int) + 1 = ((i + 1 : Nat) : Int) := by omega
      rw [hcast]
      exact jsIndex_coe _ _
  · rw [hnav NavDirection.prev, if_pos rfl]
    by_cases h0 : i = 0
    · rw [if_neg (show ¬ ((i : Int) > 0) by omega), if_pos h0]
      have hcast : ((filteredImages g s.filter).length : Int) - 1 =
          (((filteredImages g s.filter).length - 1 : Nat) : Int) := by omega
      rw [hcast]
      exact jsIndex_coe _ _
    · rw [if_pos (show (i : Int) > 0 by omega), if_neg h0]
      have hcast : (i : Int) - 1 = ((i - 1 : Nat) : Int) := by omega
      rw [hcast]
      exact jsIndex_coe _ _
  · cases hsel : s2.selectedImage with
    | none => simp only [handleNavigate, hsel]
    | some x =>
      have hgd : s2.galleryData = none := by
        rcases h2 with h | h
        · rw [hsel] at h
          exact absurd h (by simp)
        · exact h
      simp only [handleNavigate, hsel, hgd]

/-- Witness for C9 on a concrete two-image gallery with the last image
selected: next wraps to the first image, prev steps back by one, and
navigation on an empty state is a no-op. -/
theorem claim9_cyclic_navigation_witness :
    (handleNavigate NavDirection.next sampleState).selectedImage =
      (filteredImages sampleGallery sampleState.filter).get?
        (if 1 + 1 = (filteredImages sampleGallery sampleState.filter).length then 0 else 1 + 1) ∧
    (handleNavigate NavDirection.prev sampleState).selectedImage =
      (filteredImages sampleGallery sampleState.filter).get?
        (if 1 = 0 then (filteredImages sampleGallery sampleState.filter).length - 1
          else 1 - 1) ∧
    handleNavigate NavDirection.next sampleEmptyState = sampleEmptyState :=
  claim9_cyclic_navigation sampleState sampleEmptyState sampleGallery sampleImageB 1
    NavDirection.next rfl rfl (by decide) (Or.inl rfl)

/-! ### Claim C10: the manifest collections field is never read by Home -/

/-- C10: two gallery manifests that differ only in their top-level
`collections` field produce the same collection-filter list and the same
filtered image set in the `Home` component — the UI derives its filter list
solely from the `collection` tags of the images.  -/
theorem claim10_collections_field_not_read (g : GalleryData) (cs : List String) (f : String) :
    homeCollections (some { g with collections := cs }) = homeCollections (some g) ∧
    filteredImages { g with collections := cs } f = filteredImages g f :=
  ⟨rfl, rfl⟩

end PhotoGallery
